import Mathlib

/-!
Shallow embedding of the rebased-stardust-indexer core: the data model
(`models.rs`, `schema.rs`), the checkpoint worker (`sync/worker.rs`), the
query engine (`rest/routes/v1/mod.rs`, `rest/routes/v1/basic.rs`,
`rest/routes/v1/nft.rs`), the health endpoint (`rest/routes/health.rs`),
the error mapping (`rest/error.rs`) and the route table (`rest/mod.rs`,
`rest/routes/mod.rs`).

Addresses (20- or 32-byte blobs) are modelled as natural numbers: the code
only ever compares them for equality.  Machine integers are modelled as
Nat/Int with explicit wrap-around where the code can overflow: the u32
pagination arithmetic wraps modulo 2^32 (release-profile semantics) and the
u64 clock value is reinterpreted as an i64 exactly where the code writes
`as i64`.
-/

/-- Byte-blob address columns; only equality on them is ever used. -/
abbrev IotaAddr := Nat

/-- The object-type enum of `models.rs` (`ObjectType`): `Basic` and `Nft`. -/
inductive ObjectType where
  | basic
  | nft
deriving DecidableEq

/-- `ToSql` encoding of `ObjectType` (`models.rs`): `Basic = 0`, `Nft = 1`. -/
def ObjectType.code : ObjectType → Nat
  | .basic => 0
  | .nft => 1

/-- `FromSql` decoding of `ObjectType` (`models.rs`, via `TryFromPrimitive`):
only the codes 0 and 1 are accepted, anything else is rejected. -/
def ObjectType.try_from_code (n : Nat) : Option ObjectType :=
  if n = 0 then some .basic else if n = 1 then some .nft else none

/-- A Move struct tag: originating package address, module and struct name. -/
structure StructTag where
  address : Nat
  module : String
  name : String
deriving DecidableEq

/-- The Move payload of an on-chain object: its struct tag and BCS contents. -/
structure MoveData where
  tag : StructTag
  contents : List Nat
deriving DecidableEq

/-- An on-chain output object (`iota_types::object::Object`) restricted to the
fields the indexer consumes: id, shared-ownership flag and, when it is a Move
object, its struct tag and contents (`move_data = none` models a package). -/
structure ObjectInner where
  id : IotaAddr
  is_shared : Bool
  move_data : Option MoveData
deriving DecidableEq

/-- Declared input-object kinds of a transaction
(`iota_types::transaction::InputObjectKind`). -/
inductive InputObjectKind where
  | movePackage (package_id : Nat)
  | sharedMoveObject (id : Nat)
  | immOrOwnedMoveObject (id : Nat)
deriving DecidableEq

/-- One transaction of a checkpoint, restricted to the fields the worker
consumes.  `input_objects` models `tx_data.input_objects()`; the interface
contract treats this accessor as total. -/
structure CheckpointTransaction where
  is_genesis_tx : Bool
  input_objects : List InputObjectKind
  output_objects : List ObjectInner
  removed_objects_pre_version : List ObjectInner
deriving DecidableEq

/-- A checkpoint (`CheckpointData`): summary fields plus its transactions. -/
structure CheckpointData where
  sequence_number : Nat
  timestamp_ms : Nat
  transactions : List CheckpointTransaction
deriving DecidableEq

/-- A raw row of the `objects` table (`schema.rs`): the `object_type` column
is a plain SQL integer, not yet decoded into the `ObjectType` enum. -/
structure ObjectRow where
  id : IotaAddr
  object_type : Nat
  contents : List Nat
deriving DecidableEq

/-- The decoded `StoredObject` model (`models.rs`). -/
structure StoredObject where
  id : IotaAddr
  object_type : ObjectType
  contents : List Nat
deriving DecidableEq

/-- A row of `expiration_unlock_conditions` (`models.rs`/`schema.rs`). -/
structure ExpirationUnlockCondition where
  owner : IotaAddr
  return_address : IotaAddr
  unix_time : Int
  object_id : IotaAddr
deriving DecidableEq

/-- `ObjectType::try_from(&ObjectInner)` (`models.rs`): requires a Move struct
tag and matches `(module, name)` against the two known variants, trying
`(nft_output, NftOutput)` first, exactly as the source `match` does. -/
def ObjectType.try_from_obj (object : ObjectInner) : Option ObjectType :=
  match object.move_data with
  | none => none
  | some md =>
    if (md.tag.module, md.tag.name) = ("nft_output", "NftOutput") then some .nft
    else if (md.tag.module, md.tag.name) = ("basic_output", "BasicOutput") then some .basic
    else none

/-- `StoredObject::try_from(Object)` (`models.rs`): fails on non-shared
objects, then decodes the object type, then requires Move data. -/
def StoredObject.try_from_object (object : ObjectInner) : Option StoredObject :=
  if !object.is_shared then none
  else
    match ObjectType.try_from_obj object with
    | none => none
    | some t =>
      match object.move_data with
      | none => none
      | some md => some { id := object.id, object_type := t, contents := md.contents }

/-- Writing a `StoredObject` to the `objects` table encodes the enum through
its `ToSql` impl (`models.rs`). -/
def StoredObject.to_row (so : StoredObject) : ObjectRow :=
  { id := so.id, object_type := so.object_type.code, contents := so.contents }

/-- Loading a `StoredObject` from a raw row decodes the `object_type` column
through its `FromSql` impl; unknown codes make the whole load fail. -/
def StoredObject.from_row (r : ObjectRow) : Option StoredObject :=
  (ObjectType.try_from_code r.object_type).map fun t =>
    { id := r.id, object_type := t, contents := r.contents }

/-- The semantic expiration triple carried (optionally) by a decoded output;
`Basic` and `Nft` share this shape. -/
structure ExpirationTriple where
  owner : IotaAddr
  return_address : IotaAddr
  unix_time : Int
deriving DecidableEq

/-- Modelled from the spec: `sync/worker.rs` calls
`ExpirationUnlockCondition::try_from(StoredObject)`, but that conversion is
not among the given sources.  Per the spec the expiration row is derived from
the decoded output, which carries an optional expiration
`(owner, return_address, unix_time)`, and an object without an encoded
expiration yields no row.  The external BCS decoder is out of scope, so the
optional decoded expiration is abstracted as a function `decode` of the
stored contents; the conversion succeeds exactly when the decoded output
carries an expiration, and the produced row is keyed by the object's id. -/
def ExpirationUnlockCondition.try_from_stored
    (decode : List Nat → Option ExpirationTriple) (so : StoredObject) :
    Option ExpirationUnlockCondition :=
  (decode so.contents).map fun e =>
    { owner := e.owner, return_address := e.return_address,
      unix_time := e.unix_time, object_id := so.id }

/-- The objects database: the two relations the worker writes and the query
engine reads, each in rowid (insertion) order. -/
structure DB where
  objects : List ObjectRow
  conditions : List ExpirationUnlockCondition
deriving DecidableEq

/-- SQLite upsert (`INSERT ... ON CONFLICT(key) DO UPDATE`): if a row with
the same key exists it is overwritten in place (the rowid, hence the
position, is preserved), otherwise the new row is appended. -/
def upsert_by (key : α → Nat) (l : List α) (a : α) : List α :=
  if l.any (fun x => key x == key a) then
    l.map fun x => if key x == key a then a else x
  else l ++ [a]

/-- A sequence of upserts, in order. -/
def apply_upserts (key : α → Nat) (l : List α) (s : List α) : List α :=
  s.foldl (upsert_by key) l

/-- SQL `DELETE ... WHERE key IN keys`. -/
def delete_by (key : α → Nat) (keys : List Nat) (l : List α) : List α :=
  l.filter fun x => !(keys.any (fun k => k == key x))

/-- `CheckpointWorker::package_id_matches` (`sync/worker.rs`): only an input
of kind `MovePackage` with exactly the configured package id matches. -/
def package_id_matches (package_id : Nat) : InputObjectKind → Bool
  | .movePackage p => p == package_id
  | _ => false

/-- `CheckpointWorker::tx_touches_stardust_objects` (`sync/worker.rs`):
genesis transaction, or some declared input object is the package. -/
def tx_touches_stardust_objects (package_id : Nat) (tx : CheckpointTransaction) : Bool :=
  tx.is_genesis_tx || tx.input_objects.any (package_id_matches package_id)

/-- The `created_objects` batch built by `process_checkpoint`
(`sync/worker.rs`): for each touching transaction, the shared output objects
that decode into a `StoredObject`, in transaction and output order. -/
def created_objects (package_id : Nat) (checkpoint : CheckpointData) : List StoredObject :=
  checkpoint.transactions.flatMap fun tx =>
    if tx_touches_stardust_objects package_id tx then
      ((tx.output_objects.filter fun o => o.is_shared).filterMap StoredObject.try_from_object)
    else []

/-- The `deleted_addresses` batch built by `process_checkpoint`
(`sync/worker.rs`): ids of shared objects listed as removed pre-version. -/
def deleted_addresses (package_id : Nat) (checkpoint : CheckpointData) : List IotaAddr :=
  checkpoint.transactions.flatMap fun tx =>
    if tx_touches_stardust_objects package_id tx then
      ((tx.removed_objects_pre_version.filter fun o => o.is_shared).map fun o => o.id)
    else []

/-- `CheckpointWorker::multi_insert_as_database_transactions`
(`sync/worker.rs`): one database transaction per stored object, upserting the
object row by `id` and its expiration row by `object_id`.  The unconditional
`ExpirationUnlockCondition::try_from(stored_object)?` makes the per-object
transaction roll back and the whole call fail when the conversion fails;
objects committed by earlier iterations stay committed.  Returns the
resulting database state and whether the call succeeded. -/
def multi_insert_as_database_transactions
    (decode : List Nat → Option ExpirationTriple) (db : DB) :
    List StoredObject → DB × Bool
  | [] => (db, true)
  | so :: rest =>
    match ExpirationUnlockCondition.try_from_stored decode so with
    | none => (db, false)
    | some eu =>
      multi_insert_as_database_transactions decode
        { objects := upsert_by (fun r => r.id) db.objects so.to_row,
          conditions := upsert_by (fun c => c.object_id) db.conditions eu }
        rest

/-- The database states right after each committed per-object transaction of
`multi_insert_as_database_transactions`, in commit order (a rolled-back
transaction leaves the state unchanged and commits nothing further). -/
def multi_insert_states
    (decode : List Nat → Option ExpirationTriple) (db : DB) :
    List StoredObject → List DB
  | [] => []
  | so :: rest =>
    match ExpirationUnlockCondition.try_from_stored decode so with
    | none => []
    | some eu =>
      let db' : DB :=
        { objects := upsert_by (fun r => r.id) db.objects so.to_row,
          conditions := upsert_by (fun c => c.object_id) db.conditions eu }
      db' :: multi_insert_states decode db' rest

/-- `CheckpointWorker::delete_objects` (`sync/worker.rs`) deletes the listed
ids from `objects`.  Modelled from the spec: the migration SQL defining the
tables is not among the sources; the spec states that this delete cascades to
`expiration_unlock_conditions` (foreign keys are switched on per connection
in `db.rs`). -/
def delete_objects (db : DB) (addresses : List IotaAddr) : DB :=
  { objects := delete_by (fun r => r.id) addresses db.objects,
    conditions := delete_by (fun c => c.object_id) addresses db.conditions }

/-- The insertion step of `process_checkpoint` (`sync/worker.rs`): the
per-object upsert transactions, skipped when the creation batch is empty. -/
def insert_phase (decode : List Nat → Option ExpirationTriple) (db : DB)
    (created : List StoredObject) : DB × Bool :=
  if created.isEmpty then (db, true)
  else multi_insert_as_database_transactions decode db created

/-- The deletion step of `process_checkpoint` (`sync/worker.rs`): the
set-based delete, skipped when the deletion batch is empty. -/
def delete_phase (db : DB) (deleted : List IotaAddr) : DB :=
  if deleted.isEmpty then db else delete_objects db deleted

/-- `CheckpointWorker::process_checkpoint` (`sync/worker.rs`) restricted to
its database effect: build the creation and deletion batches, apply the
per-object upsert transactions, then (only if they all succeeded — a `?`
failure returns early) the set-based delete.  The boolean is `true` when the
call returns `Ok`. -/
def process_checkpoint
    (decode : List Nat → Option ExpirationTriple) (package_id : Nat)
    (db : DB) (checkpoint : CheckpointData) : DB × Bool :=
  if (insert_phase decode db (created_objects package_id checkpoint)).2 then
    (delete_phase (insert_phase decode db (created_objects package_id checkpoint)).1
      (deleted_addresses package_id checkpoint), true)
  else insert_phase decode db (created_objects package_id checkpoint)

/-- The value of the latest-checkpoint clock cell after processing a
checkpoint (`LATEST_CHECKPOINT_UNIX_TIMESTAMP_MS`, `sync/worker.rs`): always
set to the checkpoint summary's timestamp. -/
def latest_clock_after (checkpoint : CheckpointData) : Option Nat :=
  some checkpoint.timestamp_ms

/-- The error taxonomy of `rest/error.rs` (`ApiError`). -/
inductive ApiError where
  | badRequest (msg : String)
  | notFound
  | serviceUnavailable (msg : String)
  | internalServerError
  | forbidden
  | iotaTypes (msg : String)
deriving DecidableEq

/-- The HTTP status code assigned by `ApiError::into_response`. -/
def ApiError.http_status : ApiError → Nat
  | .badRequest _ => 400
  | .notFound => 404
  | .serviceUnavailable _ => 503
  | .internalServerError => 500
  | .forbidden => 403
  | .iotaTypes _ => 400

/-- The human-readable message of each error variant (the `thiserror`
format strings of `rest/error.rs`). -/
def ApiError.message : ApiError → String
  | .badRequest m => "bad request: " ++ m
  | .notFound => "not found"
  | .serviceUnavailable m => "service unavailable: " ++ m
  | .internalServerError => "internal server error"
  | .forbidden => "forbidden"
  | .iotaTypes m => "bad request: " ++ m

/-- The JSON error body of `rest/error.rs` (`ErrorBody`). -/
structure ErrorBody where
  error_code : String
  error_message : String
deriving DecidableEq

/-- `ApiError::into_response` (`rest/error.rs`): the status code plus a JSON
body carrying the code (as text) and the message. -/
def ApiError.into_response (e : ApiError) : Nat × ErrorBody :=
  (e.http_status, { error_code := toString e.http_status, error_message := e.message })

/-- Query-string pagination parameters (`PaginationParams`,
`rest/routes/v1/mod.rs`); both fields are optional u32 values. -/
structure PaginationParams where
  page : Option Nat
  page_size : Option Nat
deriving DecidableEq

/-- Wrap-around of u32 arithmetic. -/
def u32_wrap (n : Nat) : Nat := n % 4294967296

/-- The pagination step shared by all four endpoints: `page` defaults to 1,
`page_size` to 10, `offset = (page - 1) * page_size` in u32 arithmetic
(wrapping, as in a release build), then SQL `LIMIT page_size OFFSET offset`. -/
def paginate (pagination : PaginationParams) (l : List α) : List α :=
  let page := pagination.page.getD 1
  let page_size := pagination.page_size.getD 10
  let offset := u32_wrap (u32_wrap (page + 4294967295) * page_size)
  (l.drop offset).take page_size

/-- The `as i64` reinterpretation of the u64 clock value
(`rest/routes/v1/mod.rs`, "Convert to i64 for Diesel"). -/
def i64_of_u64 (n : Nat) : Int :=
  if n < 9223372036854775808 then (n : Int) else (n : Int) - 18446744073709551616

/-- Diesel `load::<StoredObject>`: every selected row must decode, a single
failure fails the whole load. -/
def decode_rows : List ObjectRow → Option (List StoredObject)
  | [] => some []
  | r :: rest =>
    match StoredObject.from_row r, decode_rows rest with
    | some s, some ss => some (s :: ss)
    | _, _ => none

/-- The `base_query` built by `fetch_stored_objects`
(`rest/routes/v1/mod.rs`): inner join of `objects` with
`expiration_unlock_conditions` on `id = object_id`, filtered by the requested
object type, then by the raw owner-or-return filter or, when
`resolve_expiration_uc` is set, by the expiration-resolved predicate against
the clock cell; with the clock unset the query fails with `Unavailable`
before touching any row. -/
def base_query (db : DB) (address : IotaAddr) (object_type_filter : ObjectType)
    (resolve_expiration_uc : Bool) (clock : Option Nat) :
    Except ApiError (List (ObjectRow × ExpirationUnlockCondition)) :=
  let joined := db.objects.filterMap fun o =>
    (db.conditions.find? fun c => c.object_id == o.id).map fun c => (o, c)
  let typed := joined.filter fun rc => rc.1.object_type == object_type_filter.code
  if resolve_expiration_uc then
    match clock with
    | none => .error (ApiError.serviceUnavailable "latest checkpoint not synced yet")
    | some ts =>
      let checkpoint_unix_timestamp_ms := i64_of_u64 ts
      .ok (typed.filter fun rc =>
        (rc.2.owner == address && decide (rc.2.unix_time * 1000 > checkpoint_unix_timestamp_ms))
        || (rc.2.return_address == address
            && decide (rc.2.unix_time * 1000 ≤ checkpoint_unix_timestamp_ms)))
  else
    .ok (typed.filter fun rc =>
      rc.2.owner == address || rc.2.return_address == address)

/-- `fetch_stored_objects` (`rest/routes/v1/mod.rs`): the base query, sliced
by pagination, then loaded (decoding each selected row; a row that fails to
decode turns the load into `Internal`). -/
def fetch_stored_objects (db : DB) (address : IotaAddr) (pagination : PaginationParams)
    (object_type_filter : ObjectType) (resolve_expiration_uc : Bool)
    (clock : Option Nat) : Except ApiError (List StoredObject) :=
  (base_query db address object_type_filter resolve_expiration_uc clock).bind fun rows =>
    match decode_rows ((paginate pagination rows).map fun rc => rc.1) with
    | none => .error ApiError.internalServerError
    | some sos => .ok sos

/-- The same query without the pagination slice: the unpaginated result the
pagination property is stated against. -/
def query_results_all (db : DB) (address : IotaAddr) (object_type_filter : ObjectType)
    (resolve_expiration_uc : Bool) (clock : Option Nat) :
    Except ApiError (List StoredObject) :=
  (base_query db address object_type_filter resolve_expiration_uc clock).bind fun rows =>
    match decode_rows (rows.map fun rc => rc.1) with
    | none => .error ApiError.internalServerError
    | some sos => .ok sos

/-- The rows selected by the raw `basic`/`nft` handlers
(`rest/routes/v1/basic.rs`, `rest/routes/v1/nft.rs`): join on
`id = object_id`, filter owner-or-return only (no object-type filter), then
the pagination slice; the selected columns are the object columns. -/
def handler_query_rows (db : DB) (address : IotaAddr) (pagination : PaginationParams) :
    List ObjectRow :=
  let joined := db.objects.filterMap fun o =>
    (db.conditions.find? fun c => c.object_id == o.id).map fun c => (o, c)
  let filtered := joined.filter fun rc =>
    rc.2.owner == address || rc.2.return_address == address
  (paginate pagination filtered).map fun rc => rc.1

/-- `BasicOutput::try_from(StoredObject)` (`models.rs`): rejects stored
objects whose type is not `Basic`, then BCS-decodes the contents.  The BCS
decoder is external, so it is abstracted as the parameter `bcs`. -/
def BasicOutput.try_from_stored (bcs : List Nat → Option β) (so : StoredObject) : Option β :=
  if so.object_type = ObjectType.basic then bcs so.contents else none

/-- `NftOutput::try_from(StoredObject)` (`models.rs`): rejects stored objects
whose type is not `Nft`, then BCS-decodes the contents. -/
def NftOutput.try_from_stored (bcs : List Nat → Option β) (so : StoredObject) : Option β :=
  if so.object_type = ObjectType.nft then bcs so.contents else none

/-- The `basic` handler (`rest/routes/v1/basic.rs`): load the queried page
(decode failure of a row at load time is `Internal`), then convert each
stored object with `BasicOutput::try_from`, silently dropping failures
(`filter_map(.. .ok())`). -/
def basic (bcs : List Nat → Option β) (db : DB) (address : IotaAddr)
    (pagination : PaginationParams) : Except ApiError (List β) :=
  match decode_rows (handler_query_rows db address pagination) with
  | none => .error ApiError.internalServerError
  | some stored_objects => .ok (stored_objects.filterMap (BasicOutput.try_from_stored bcs))

/-- The `nft` handler (`rest/routes/v1/nft.rs`), same shape as `basic`. -/
def nft (bcs : List Nat → Option β) (db : DB) (address : IotaAddr)
    (pagination : PaginationParams) : Except ApiError (List β) :=
  match decode_rows (handler_query_rows db address pagination) with
  | none => .error ApiError.internalServerError
  | some stored_objects => .ok (stored_objects.filterMap (NftOutput.try_from_stored bcs))

/-- The `/health` response body (`rest/routes/health.rs`). -/
structure HealthResponse where
  objects_count : Nat
  basic_objects_count : Nat
  nft_objects_count : Nat
deriving DecidableEq

/-- The `health` handler (`rest/routes/health.rs`): three SQL counts over the
raw `objects` table — all rows, rows with `object_type = Basic`'s code, rows
with `object_type = Nft`'s code. -/
def health (db : DB) : HealthResponse :=
  { objects_count := db.objects.length,
    basic_objects_count :=
      (db.objects.filter fun r => r.object_type == ObjectType.code .basic).length,
    nft_objects_count :=
      (db.objects.filter fun r => r.object_type == ObjectType.code .nft).length }

/-- A segment of a registered route pattern: a literal, a one-segment
capture (`:address`), or a rest-of-path wildcard (`*tail`). -/
inductive RouteSeg where
  | lit (s : String)
  | capture
  | tail
deriving DecidableEq

/-- Whether a route pattern matches a request path (split into segments). -/
def route_matches : List RouteSeg → List String → Bool
  | [], [] => true
  | .lit s :: ps, x :: xs => s == x && route_matches ps xs
  | .capture :: ps, _ :: xs => route_matches ps xs
  | [.tail], _ :: _ => true
  | _, _ => false

/-- The GET routes registered by `build_app` (`rest/mod.rs`) via `router_all`
(`rest/routes/mod.rs`): `/health`, `/metrics`, the swagger-ui document
routes, and the two v1 routes `basic::router` and `nft::router` register
(`/v1/basic/:address` and `/v1/nft/:address`). -/
def registered_routes : List (List RouteSeg) :=
  [[.lit "health"],
   [.lit "metrics"],
   [.lit "swagger-ui"],
   [.lit "swagger-ui", .tail],
   [.lit "api-docs", .lit "openapi.json"],
   [.lit "v1", .lit "basic", .capture],
   [.lit "v1", .lit "nft", .capture]]

/-- Route dispatch of `build_app`: a request either reaches a registered
route's handler or falls through to the `fallback` (which answers
`ApiError::Forbidden`). -/
inductive Dispatch where
  | routed
  | fallback
deriving DecidableEq

/-- Dispatch a GET path against the registered routes (`build_app`,
`rest/mod.rs`). -/
def dispatch (path : List String) : Dispatch :=
  if registered_routes.any (fun p => route_matches p path) then .routed else .fallback

/-- The error response produced by the app for a path, if any: fallback
paths answer `Forbidden` through `ApiError::into_response`; routed paths are
answered by their handlers. -/
def app_error_response (path : List String) : Option (Nat × ErrorBody) :=
  match dispatch path with
  | .fallback => some (ApiError.forbidden.into_response)
  | .routed => none

/-! ### Spec-side definitions for the refinement claims -/

/-- Written from the claim C1's words: the objects of the requested variant
joined to an expiration row satisfying
"(owner = A and unix_time*1000 > now_ms) or
(return_address = A and unix_time*1000 <= now_ms)", with `now_ms` the set
clock value compared as a mathematical integer. -/
def resolved_spec_member (db : DB) (address : IotaAddr) (t : ObjectType)
    (now_ms : Int) (so : StoredObject) : Prop :=
  ∃ r ∈ db.objects, StoredObject.from_row r = some so ∧ so.object_type = t ∧
    ∃ c ∈ db.conditions, c.object_id = r.id ∧
      ((c.owner = address ∧ c.unix_time * 1000 > now_ms) ∨
       (c.return_address = address ∧ c.unix_time * 1000 ≤ now_ms))

/-- Written from the claim C2's words: an output object is decoded and
stored exactly when its transaction is genesis or declares the configured
package among its inputs, and the object is shared with one of the two known
struct identities. -/
def stored_by_spec (package_id : Nat) (checkpoint : CheckpointData) (so : StoredObject) : Prop :=
  ∃ tx ∈ checkpoint.transactions,
    (tx.is_genesis_tx = true ∨ InputObjectKind.movePackage package_id ∈ tx.input_objects) ∧
    ∃ o ∈ tx.output_objects, o.is_shared = true ∧
      ∃ md, o.move_data = some md ∧
        ((md.tag.module = "basic_output" ∧ md.tag.name = "BasicOutput" ∧
          so = { id := o.id, object_type := .basic, contents := md.contents }) ∨
         (md.tag.module = "nft_output" ∧ md.tag.name = "NftOutput" ∧
          so = { id := o.id, object_type := .nft, contents := md.contents }))

/-- The six route patterns claim C9 lists (the resolved variants written from
the spec's route table). -/
def six_route_specs : List (List RouteSeg) :=
  [[.lit "health"],
   [.lit "metrics"],
   [.lit "v1", .lit "basic", .capture],
   [.lit "v1", .lit "basic", .lit "resolved", .capture],
   [.lit "v1", .lit "nft", .capture],
   [.lit "v1", .lit "nft", .lit "resolved", .capture]]

/-- Pair integrity (spec I2/P1): every expiration row points at an existing
object row. -/
def pair_integrity (db : DB) : Prop :=
  ∀ c ∈ db.conditions, ∃ r ∈ db.objects, r.id = c.object_id

/-! ### Concrete inputs used by witnesses and counterexamples -/

/-- A decoded-contents oracle for outputs that carry no expiration. -/
def decode_no_expiration : List Nat → Option ExpirationTriple := fun _ => none

/-- A decoded-contents oracle whose outputs all carry the same expiration. -/
def decode_const_expiration : List Nat → Option ExpirationTriple :=
  fun _ => some { owner := 21, return_address := 22, unix_time := 3 }

/-- A checkpoint with one genesis transaction holding one shared basic
output. -/
def cp_one_basic : CheckpointData :=
  { sequence_number := 1, timestamp_ms := 500000000,
    transactions :=
      [{ is_genesis_tx := true, input_objects := [],
         output_objects :=
           [{ id := 1, is_shared := true,
              move_data := some { tag := { address := 77, module := "basic_output",
                                           name := "BasicOutput" },
                                  contents := [] } }],
         removed_objects_pre_version := [] }] }

/-- A database holding one NFT-typed row whose expiration row names owner 5. -/
def db_with_nft_row : DB :=
  { objects := [{ id := 1, object_type := 1, contents := [] }],
    conditions := [{ owner := 5, return_address := 5, unix_time := 40, object_id := 1 }] }

/-! ### C6 -/

/-- C6: while the latest-checkpoint clock cell is unset, every
expiration-resolved query fails with `Unavailable` (HTTP 503) before reading
any row. -/
theorem c6_resolved_unavailable_while_clock_unset (db : DB) (address : IotaAddr)
    (pagination : PaginationParams) (t : ObjectType) :
    fetch_stored_objects db address pagination t true none
        = .error (ApiError.serviceUnavailable "latest checkpoint not synced yet") ∧
      (ApiError.serviceUnavailable "latest checkpoint not synced yet").http_status = 503 :=
  ⟨rfl, rfl⟩

/-! ### C3 -/

/-- C3: the claim (and the spec) say an object of a matching variant whose
decoded contents carry no expiration is stored with the expiration table
left untouched and the checkpoint succeeding; the code instead calls
`ExpirationUnlockCondition::try_from` unconditionally inside the per-object
transaction, so the conversion failure rolls the object upsert back and
fails the whole checkpoint.  Evaluated at the failing input: one shared
basic output whose contents decode to no expiration, against an empty
database. -/
theorem c3_worker_fails_on_missing_expiration :
    created_objects 9 cp_one_basic
        = [{ id := 1, object_type := .basic, contents := [] }] ∧
      process_checkpoint decode_no_expiration 9 { objects := [], conditions := [] }
          cp_one_basic
        = ({ objects := [], conditions := [] }, false) := by
  exact ⟨rfl, rfl⟩

/-! ### C9 -/

/-- C9 counterexample: the GET path `/api-docs/openapi.json` matches none of
the six routes the claim lists, yet `router_all` routes it (to the swagger
document handler), so it does not receive the 403 fallback response. -/
theorem c9_counterexample_openapi_routed :
    (six_route_specs.any fun p => route_matches p ["api-docs", "openapi.json"]) = false ∧
      dispatch ["api-docs", "openapi.json"] = Dispatch.routed := by
  exact ⟨rfl, rfl⟩

/-- C9 amended: every GET request whose path matches none of the registered
route patterns (the claim's six minus the unregistered resolved variants,
plus the swagger-ui document routes) falls through to the fallback and
receives HTTP 403 with the JSON body `error_code = "403"`,
`error_message = "forbidden"`. -/
theorem c9_unrouted_get_is_forbidden (path : List String)
    (h : (registered_routes.any fun p => route_matches p path) = false) :
    app_error_response path
      = some (403, { error_code := "403", error_message := "forbidden" }) := by
  unfold app_error_response dispatch
  rw [h]
  rfl

/-- C9 witness: a request to the spec's resolved basic route is not
registered in this source snapshot and receives the 403 body. -/
theorem c9_unrouted_get_is_forbidden_witness :
    (registered_routes.any fun p =>
        route_matches p ["v1", "basic", "resolved", "0x1"]) = false ∧
      app_error_response ["v1", "basic", "resolved", "0x1"]
        = some (403, { error_code := "403", error_message := "forbidden" }) :=
  ⟨rfl, c9_unrouted_get_is_forbidden ["v1", "basic", "resolved", "0x1"] rfl⟩

/-! ### C8 -/

/-- C8 counterexample: an NFT-typed row whose expiration row matches address
5 is selected by the raw basic endpoint's query (which has no object-type
filter), fails `BasicOutput::try_from` (not a Basic object), and the
endpoint answers `Ok []` — a partial (here empty) 200 result instead of the
claimed Internal error. -/
theorem c8_counterexample_silent_skip :
    handler_query_rows db_with_nft_row 5 { page := none, page_size := none }
        = [{ id := 1, object_type := 1, contents := [] }] ∧
      basic (fun _ => some 0) db_with_nft_row 5 { page := none, page_size := none }
        = Except.ok ([] : List Nat) := by
  exact ⟨rfl, rfl⟩

/-- C8 amended: when every selected row loads, a row that fails to convert
into its output type is silently omitted and the endpoint succeeds with the
remaining rows (only a row that fails to load, e.g. an unknown stored type
code, yields Internal). -/
theorem c8_decode_failures_silently_skipped (bcs : List Nat → Option β) (db : DB)
    (address : IotaAddr) (pagination : PaginationParams) (sos : List StoredObject)
    (h : decode_rows (handler_query_rows db address pagination) = some sos) :
    basic bcs db address pagination
        = .ok (sos.filterMap (BasicOutput.try_from_stored bcs)) ∧
      nft bcs db address pagination
        = .ok (sos.filterMap (NftOutput.try_from_stored bcs)) := by
  unfold basic nft
  rw [h]
  exact ⟨rfl, rfl⟩

/-- C8 witness: at the concrete NFT-row database the basic endpoint succeeds
with the undecodable row dropped. -/
theorem c8_decode_failures_silently_skipped_witness :
    decode_rows (handler_query_rows db_with_nft_row 5 { page := none, page_size := none })
        = some [{ id := 1, object_type := .nft, contents := [] }] ∧
      basic (fun _ => some 0) db_with_nft_row 5 { page := none, page_size := none }
        = Except.ok ([] : List Nat) :=
  ⟨rfl,
    (c8_decode_failures_silently_skipped (fun _ => some 0) db_with_nft_row 5
        { page := none, page_size := none }
        [{ id := 1, object_type := .nft, contents := [] }] rfl).1⟩

/-! ### Generic facts about upserts and deletes -/

theorem mem_upsert_by {key : α → Nat} {l : List α} {a x : α}
    (h : x ∈ upsert_by key l a) : x ∈ l ∨ x = a := by
  unfold upsert_by at h
  split at h
  · rcases List.mem_map.1 h with ⟨y, hy, hyx⟩
    by_cases hk : key y == key a
    · right
      simp [hk] at hyx
      exact hyx.symm
    · left
      simp [hk] at hyx
      exact hyx ▸ hy
  · rcases List.mem_append.1 h with h' | h'
    · exact Or.inl h'
    · exact Or.inr (List.mem_singleton.1 h')

theorem self_mem_upsert_by {key : α → Nat} (l : List α) (a : α) :
    a ∈ upsert_by key l a := by
  unfold upsert_by
  split
  · next hany =>
    rcases List.any_eq_true.1 hany with ⟨x, hx, hk⟩
    exact List.mem_map.2 ⟨x, hx, by simp [hk]⟩
  · exact List.mem_append.2 (Or.inr (List.mem_singleton.2 rfl))

theorem map_key_upsert_by (key : α → Nat) (l : List α) (a : α) :
    (upsert_by key l a).map key
      = if l.any (fun x => key x == key a) then l.map key else l.map key ++ [key a] := by
  unfold upsert_by
  split
  · rw [List.map_map]
    refine List.map_congr_left fun x _ => ?_
    by_cases hk : key x = key a
    · simp [hk]
    · simp [hk]
  · simp

theorem key_mem_map_upsert_by {key : α → Nat} {l : List α} {k : Nat} (a : α)
    (h : k ∈ l.map key) : k ∈ (upsert_by key l a).map key := by
  rw [map_key_upsert_by]
  split
  · exact h
  · exact List.mem_append.2 (Or.inl h)

/-! ### C5 -/

theorem try_from_stored_object_id {decode : List Nat → Option ExpirationTriple}
    {so : StoredObject} {eu : ExpirationUnlockCondition}
    (h : ExpirationUnlockCondition.try_from_stored decode so = some eu) :
    eu.object_id = so.id := by
  unfold ExpirationUnlockCondition.try_from_stored at h
  rcases Option.map_eq_some'.1 h with ⟨e, _, hmk⟩
  rw [← hmk]

theorem pair_integrity_upsert_step {decode : List Nat → Option ExpirationTriple}
    {db : DB} {so : StoredObject} {eu : ExpirationUnlockCondition}
    (heu : ExpirationUnlockCondition.try_from_stored decode so = some eu)
    (h : pair_integrity db) :
    pair_integrity
      { objects := upsert_by (fun r => r.id) db.objects so.to_row,
        conditions := upsert_by (fun c => c.object_id) db.conditions eu } := by
  intro c hc
  rcases mem_upsert_by hc with hold | rfl
  · rcases h c hold with ⟨r, hr, hid⟩
    have hk : c.object_id ∈ (upsert_by (fun r => r.id) db.objects so.to_row).map
        (fun r => r.id) :=
      key_mem_map_upsert_by _ (List.mem_map.2 ⟨r, hr, hid⟩)
    rcases List.mem_map.1 hk with ⟨r', hr', hid'⟩
    exact ⟨r', hr', hid'⟩
  · refine ⟨so.to_row, self_mem_upsert_by _ _, ?_⟩
    rw [try_from_stored_object_id heu]
    rfl

theorem multi_insert_states_integrity
    (decode : List Nat → Option ExpirationTriple) (db : DB)
    (sos : List StoredObject) (h : pair_integrity db) :
    ∀ s ∈ multi_insert_states decode db sos, pair_integrity s := by
  induction sos generalizing db with
  | nil => intro s hs; simp [multi_insert_states] at hs
  | cons so rest ih =>
    intro s hs
    rcases heq : ExpirationUnlockCondition.try_from_stored decode so with _ | eu
    · simp [multi_insert_states, heq] at hs
    · simp only [multi_insert_states, heq] at hs
      rcases List.mem_cons.1 hs with rfl | hs'
      · exact pair_integrity_upsert_step heq h
      · exact ih _ (pair_integrity_upsert_step heq h) s hs'

theorem multi_insert_integrity
    (decode : List Nat → Option ExpirationTriple) (db : DB)
    (sos : List StoredObject) (h : pair_integrity db) :
    pair_integrity (multi_insert_as_database_transactions decode db sos).1 := by
  induction sos generalizing db with
  | nil => exact h
  | cons so rest ih =>
    rcases heq : ExpirationUnlockCondition.try_from_stored decode so with _ | eu
    · simpa [multi_insert_as_database_transactions, heq] using h
    · simp only [multi_insert_as_database_transactions, heq]
      exact ih _ (pair_integrity_upsert_step heq h)

theorem delete_objects_integrity {db : DB} (addresses : List IotaAddr)
    (h : pair_integrity db) : pair_integrity (delete_objects db addresses) := by
  intro c hc
  rcases List.mem_filter.1 hc with ⟨hcm, hcp⟩
  rcases h c hcm with ⟨r, hr, hid⟩
  refine ⟨r, List.mem_filter.2 ⟨hr, ?_⟩, hid⟩
  show (!addresses.any fun k => k == r.id) = true
  rw [hid]
  exact hcp

/-- C5: pair integrity (every expiration row points at an object row) holds
at every externally observable moment: after each committed per-object
transaction of `multi_insert_as_database_transactions` and after the
worker's deletion statement, i.e. at the database state
`process_checkpoint` leaves behind. -/
theorem c5_pair_integrity_preserved
    (decode : List Nat → Option ExpirationTriple) (package_id : Nat)
    (db : DB) (checkpoint : CheckpointData) (h : pair_integrity db) :
    (∀ s ∈ multi_insert_states decode db (created_objects package_id checkpoint),
        pair_integrity s) ∧
      pair_integrity (process_checkpoint decode package_id db checkpoint).1 := by
  refine ⟨multi_insert_states_integrity decode db _ h, ?_⟩
  have h1 : pair_integrity
      (insert_phase decode db (created_objects package_id checkpoint)).1 := by
    unfold insert_phase
    split
    · exact h
    · exact multi_insert_integrity decode db _ h
  unfold process_checkpoint
  split
  · show pair_integrity
      (delete_phase (insert_phase decode db (created_objects package_id checkpoint)).1
        (deleted_addresses package_id checkpoint))
    unfold delete_phase
    split
    · exact h1
    · exact delete_objects_integrity _ h1
  · exact h1

/-- C5 witness: the preserved integrity evaluated at a concrete database and
checkpoint. -/
theorem c5_pair_integrity_preserved_witness :
    pair_integrity db_with_nft_row ∧
      pair_integrity
        (process_checkpoint decode_const_expiration 77 db_with_nft_row cp_one_basic).1 :=
  ⟨by unfold pair_integrity; decide,
    (c5_pair_integrity_preserved decode_const_expiration 77 db_with_nft_row cp_one_basic
        (by unfold pair_integrity; decide)).2⟩

/-! ### C10 -/

theorem length_filter_codes (l : List ObjectRow)
    (h : ∀ r ∈ l, r.object_type = 0 ∨ r.object_type = 1) :
    l.length = (l.filter fun r => r.object_type == 0).length
      + (l.filter fun r => r.object_type == 1).length := by
  induction l with
  | nil => rfl
  | cons r rest ih =>
    have hr := h r (List.mem_cons_self r rest)
    have hrest := ih fun x hx => h x (List.mem_cons_of_mem _ hx)
    rcases hr with h0 | h1
    · simp [List.filter_cons, h0, hrest]
      omega
    · simp [List.filter_cons, h1, hrest]
      omega

theorem mem_multi_insert_objects
    {decode : List Nat → Option ExpirationTriple} {db : DB}
    {sos : List StoredObject} {x : ObjectRow}
    (h : x ∈ (multi_insert_as_database_transactions decode db sos).1.objects) :
    x ∈ db.objects ∨ ∃ so ∈ sos, x = so.to_row := by
  induction sos generalizing db with
  | nil => exact Or.inl h
  | cons so rest ih =>
    rcases heq : ExpirationUnlockCondition.try_from_stored decode so with _ | eu
    · rw [multi_insert_as_database_transactions, heq] at h
      exact Or.inl h
    · rw [multi_insert_as_database_transactions, heq] at h
      rcases ih h with h' | ⟨so', hso', rfl⟩
      · rcases mem_upsert_by h' with h'' | rfl
        · exact Or.inl h''
        · exact Or.inr ⟨so, List.mem_cons_self so rest, rfl⟩
      · exact Or.inr ⟨so', List.mem_cons_of_mem _ hso', rfl⟩

theorem to_row_code_valid (so : StoredObject) :
    so.to_row.object_type = 0 ∨ so.to_row.object_type = 1 := by
  cases h : so.object_type <;> simp [StoredObject.to_row, ObjectType.code, h]

theorem mem_insert_phase_objects
    {decode : List Nat → Option ExpirationTriple} {db : DB}
    {created : List StoredObject} {x : ObjectRow}
    (h : x ∈ (insert_phase decode db created).1.objects) :
    x ∈ db.objects ∨ ∃ so : StoredObject, x = so.to_row := by
  unfold insert_phase at h
  split at h
  · exact Or.inl h
  · rcases mem_multi_insert_objects h with h' | ⟨so, _, rfl⟩
    · exact Or.inl h'
    · exact Or.inr ⟨so, rfl⟩

theorem mem_delete_phase_objects {db : DB} {deleted : List IotaAddr} {x : ObjectRow}
    (h : x ∈ (delete_phase db deleted).objects) : x ∈ db.objects := by
  unfold delete_phase at h
  split at h
  · exact h
  · exact List.mem_of_mem_filter h

theorem mem_process_checkpoint_objects
    {decode : List Nat → Option ExpirationTriple} {package_id : Nat} {db : DB}
    {checkpoint : CheckpointData} {x : ObjectRow}
    (h : x ∈ (process_checkpoint decode package_id db checkpoint).1.objects) :
    x ∈ db.objects ∨ ∃ so : StoredObject, x = so.to_row := by
  unfold process_checkpoint at h
  split at h
  · exact mem_insert_phase_objects (mem_delete_phase_objects h)
  · exact mem_insert_phase_objects h

/-- C10: whenever every stored `object_type` code is 0 (Basic) or 1 (Nft),
the `/health` counts satisfy `objects_count = basic + nft`; and the worker's
writes preserve that proviso, since every row it stores is the encoding of a
decoded Basic or Nft object. -/
theorem c10_health_counts_add_up (db : DB)
    (h : ∀ r ∈ db.objects, r.object_type = 0 ∨ r.object_type = 1) :
    (health db).objects_count
        = (health db).basic_objects_count + (health db).nft_objects_count ∧
      ∀ (decode : List Nat → Option ExpirationTriple) (package_id : Nat)
        (checkpoint : CheckpointData),
        ∀ r ∈ (process_checkpoint decode package_id db checkpoint).1.objects,
          r.object_type = 0 ∨ r.object_type = 1 := by
  constructor
  · exact length_filter_codes db.objects h
  · intro decode package_id checkpoint r hr
    rcases mem_process_checkpoint_objects hr with h' | ⟨so, rfl⟩
    · exact h r h'
    · exact to_row_code_valid so

/-- C10 witness: the health equation evaluated at a concrete database with
one row of each variant. -/
theorem c10_health_counts_add_up_witness :
    (∀ r ∈ (DB.mk [⟨1, 0, []⟩, ⟨2, 1, [5]⟩] []).objects,
        r.object_type = 0 ∨ r.object_type = 1) ∧
      (health (DB.mk [⟨1, 0, []⟩, ⟨2, 1, [5]⟩] [])).objects_count
        = (health (DB.mk [⟨1, 0, []⟩, ⟨2, 1, [5]⟩] [])).basic_objects_count
          + (health (DB.mk [⟨1, 0, []⟩, ⟨2, 1, [5]⟩] [])).nft_objects_count :=
  ⟨by decide, (c10_health_counts_add_up _ (by decide)).1⟩

/-! ### C2 -/

theorem package_id_matches_iff {package_id : Nat} {k : InputObjectKind} :
    package_id_matches package_id k = true ↔ k = .movePackage package_id := by
  cases k <;> simp [package_id_matches]

theorem tx_touches_iff {package_id : Nat} {tx : CheckpointTransaction} :
    tx_touches_stardust_objects package_id tx = true ↔
      (tx.is_genesis_tx = true ∨ InputObjectKind.movePackage package_id ∈ tx.input_objects) := by
  simp [tx_touches_stardust_objects, List.any_eq_true, package_id_matches_iff]

theorem try_from_object_eq_some {o : ObjectInner} {so : StoredObject} :
    StoredObject.try_from_object o = some so ↔
      o.is_shared = true ∧ ∃ md, o.move_data = some md ∧
        ((md.tag.module = "basic_output" ∧ md.tag.name = "BasicOutput" ∧
          so = { id := o.id, object_type := .basic, contents := md.contents }) ∨
         (md.tag.module = "nft_output" ∧ md.tag.name = "NftOutput" ∧
          so = { id := o.id, object_type := .nft, contents := md.contents })) := by
  unfold StoredObject.try_from_object ObjectType.try_from_obj
  cases hsh : o.is_shared
  · simp
  · cases hmd : o.move_data with
    | none => simp
    | some md =>
      simp only [Bool.not_true, if_false, hmd, Bool.true_eq, true_and]
      by_cases h1 : (md.tag.module, md.tag.name) = ("nft_output", "NftOutput")
      · rw [if_pos h1]
        rw [Prod.mk.injEq] at h1
        simp [h1.1, h1.2, eq_comm]
      · by_cases h2 : (md.tag.module, md.tag.name) = ("basic_output", "BasicOutput")
        · rw [if_neg h1, if_pos h2]
          rw [Prod.mk.injEq] at h2
          simp [h2.1, h2.2, eq_comm]
        · rw [if_neg h1, if_neg h2]
          refine iff_of_false (by simp) ?_
          rintro ⟨md', hmd', hcase⟩
          rw [Option.some.injEq] at hmd'
          subst hmd'
          rcases hcase with ⟨hm, hn, _⟩ | ⟨hm, hn, _⟩
          · exact h2 (by rw [Prod.mk.injEq]; exact ⟨hm, hn⟩)
          · exact h1 (by rw [Prod.mk.injEq]; exact ⟨hm, hn⟩)

/-- C2: an output object of a checkpoint is decoded into the creation batch
(and hence stored) exactly when its transaction is genesis or declares the
configured package id among its input objects, and the object is shared with
struct identity `(basic_output, BasicOutput)` (mapped to Basic) or
`(nft_output, NftOutput)` (mapped to Nft); non-shared or non-matching
outputs never reach the batch (they are skipped, and the batch construction
is total). -/
theorem c2_created_objects_iff_spec (package_id : Nat) (checkpoint : CheckpointData)
    (so : StoredObject) :
    so ∈ created_objects package_id checkpoint ↔ stored_by_spec package_id checkpoint so := by
  unfold created_objects stored_by_spec
  rw [List.mem_flatMap]
  constructor
  · rintro ⟨tx, htx, hmem⟩
    by_cases ht : tx_touches_stardust_objects package_id tx
    · rw [if_pos ht] at hmem
      rcases List.mem_filterMap.1 hmem with ⟨o, ho, htf⟩
      rcases List.mem_filter.1 ho with ⟨ho', hsh⟩
      rcases try_from_object_eq_some.1 htf with ⟨hsh', md, hmd, hcase⟩
      exact ⟨tx, htx, tx_touches_iff.1 ht, o, ho', hsh', md, hmd, hcase⟩
    · rw [if_neg ht] at hmem
      cases hmem
  · rintro ⟨tx, htx, htouch, o, ho, hsh, md, hmd, hcase⟩
    refine ⟨tx, htx, ?_⟩
    rw [if_pos (tx_touches_iff.2 htouch)]
    exact List.mem_filterMap.2
      ⟨o, List.mem_filter.2 ⟨ho, hsh⟩, try_from_object_eq_some.2 ⟨hsh, md, hmd, hcase⟩⟩

/-! ### C1 -/

theorem try_from_code_eq_some {n : Nat} {t : ObjectType} :
    ObjectType.try_from_code n = some t ↔ n = t.code := by
  cases t <;> unfold ObjectType.try_from_code <;> split_ifs with h0 h1 <;>
    simp_all [ObjectType.code]

theorem from_row_eq_some {r : ObjectRow} {so : StoredObject} :
    StoredObject.from_row r = some so ↔
      r.object_type = so.object_type.code ∧ so.id = r.id ∧ so.contents = r.contents := by
  unfold StoredObject.from_row
  rw [Option.map_eq_some']
  constructor
  · rintro ⟨t, ht, rfl⟩
    simpa using try_from_code_eq_some.1 ht
  · rintro ⟨hcode, hid, hcont⟩
    exact ⟨so.object_type, try_from_code_eq_some.2 hcode, by cases so; simp_all⟩

theorem from_row_isSome_of_code {r : ObjectRow} {t : ObjectType}
    (h : r.object_type = t.code) : (StoredObject.from_row r).isSome := by
  unfold StoredObject.from_row
  rw [try_from_code_eq_some.2 h]
  rfl

theorem decode_rows_eq_some_of_valid {l : List ObjectRow}
    (h : ∀ r ∈ l, (StoredObject.from_row r).isSome) :
    decode_rows l = some (l.filterMap StoredObject.from_row) := by
  induction l with
  | nil => rfl
  | cons r rest ih =>
    rcases Option.isSome_iff_exists.1 (h r (List.mem_cons_self r rest)) with ⟨s, hs⟩
    rw [decode_rows, hs, ih fun x hx => h x (List.mem_cons_of_mem _ hx),
      List.filterMap_cons_some hs]

theorem find?_key_unique {l : List ExpirationUnlockCondition} {c : ExpirationUnlockCondition}
    (hnd : (l.map fun x => x.object_id).Nodup) (hc : c ∈ l) :
    l.find? (fun x => x.object_id == c.object_id) = some c := by
  induction l with
  | nil => cases hc
  | cons d rest ih =>
    rw [List.map_cons, List.nodup_cons] at hnd
    rcases List.mem_cons.1 hc with rfl | hc'
    · rw [List.find?_cons_of_pos]
      simp
    · rw [List.find?_cons_of_neg, ih hnd.2 hc']
      simp only [beq_iff_eq]
      intro he
      exact hnd.1 (he ▸ List.mem_map.2 ⟨c, hc', rfl⟩)

/-- C1 amended: for every set clock value below 2^63 (the clock is
reinterpreted `as i64` before the comparison, so larger values flip sign)
and any database state respecting the `object_id` primary key, the
expiration-resolved query returns exactly the stored objects of the
requested variant joined to an expiration row satisfying
`(owner = A ∧ unix_time*1000 > now_ms) ∨
(return_address = A ∧ unix_time*1000 ≤ now_ms)`; at the boundary
`unix_time*1000 = now_ms` the row satisfies only the return-address side. -/
theorem c1_resolved_query_membership (db : DB) (address : IotaAddr) (t : ObjectType)
    (ts : Nat) (hts : ts < 9223372036854775808)
    (hpk : (db.conditions.map fun c => c.object_id).Nodup) (so : StoredObject) :
    (∃ l, query_results_all db address t true (some ts) = .ok l ∧ so ∈ l) ↔
      resolved_spec_member db address t (ts : Int) so := by
  have hnow : i64_of_u64 ts = (ts : Int) := if_pos hts
  set rows := ((db.objects.filterMap fun o =>
      (db.conditions.find? fun c => c.object_id == o.id).map fun c => (o, c)).filter
        fun rc => rc.1.object_type == t.code).filter
      (fun rc =>
        (rc.2.owner == address && decide (rc.2.unix_time * 1000 > i64_of_u64 ts))
        || (rc.2.return_address == address
            && decide (rc.2.unix_time * 1000 ≤ i64_of_u64 ts))) with hrows
  have hbq : base_query db address t true (some ts) = .ok rows := rfl
  have hvalid : ∀ r ∈ rows.map (fun rc => rc.1), (StoredObject.from_row r).isSome := by
    intro r hr
    rcases List.mem_map.1 hr with ⟨rc, hrc, rfl⟩
    have hty := (List.mem_filter.1 (List.mem_of_mem_filter hrc)).2
    exact from_row_isSome_of_code (by simpa using hty)
  have hq : query_results_all db address t true (some ts)
      = .ok ((rows.map fun rc => rc.1).filterMap StoredObject.from_row) := by
    unfold query_results_all
    rw [hbq]
    show (match decode_rows (rows.map fun rc => rc.1) with
      | none => Except.error ApiError.internalServerError
      | some sos => Except.ok sos) = _
    rw [decode_rows_eq_some_of_valid hvalid]
  constructor
  · rintro ⟨l, hl, hsol⟩
    rw [hq, Except.ok.injEq] at hl
    subst hl
    rcases List.mem_filterMap.1 hsol with ⟨r, hr, hfr⟩
    rcases List.mem_map.1 hr with ⟨rc, hrc, rfl⟩
    rcases List.mem_filter.1 hrc with ⟨hrc1, hpred⟩
    rcases List.mem_filter.1 hrc1 with ⟨hrc2, hty⟩
    rcases List.mem_filterMap.1 hrc2 with ⟨o, ho, hmap⟩
    rcases Option.map_eq_some'.1 hmap with ⟨c, hfind, hpair⟩
    cases hpair
    have hc_mem : c ∈ db.conditions := List.mem_of_find?_eq_some hfind
    have hkey : c.object_id = o.id := by simpa using List.find?_some hfind
    refine ⟨o, ho, hfr, ?_, c, hc_mem, hkey, ?_⟩
    · have h1 := (from_row_eq_some.1 hfr).1
      have h2 : o.object_type = t.code := by simpa using hty
      cases hso : so.object_type <;> cases t <;> simp_all [ObjectType.code]
    · have := hpred
      simp only [hnow, Bool.or_eq_true, Bool.and_eq_true, beq_iff_eq,
        decide_eq_true_eq] at this
      exact this
  · rintro ⟨r, hr, hfr, hty, c, hc, hkey, hpred⟩
    refine ⟨_, hq, ?_⟩
    refine List.mem_filterMap.2 ⟨r, List.mem_map.2 ⟨(r, c), ?_, rfl⟩, hfr⟩
    refine List.mem_filter.2 ⟨List.mem_filter.2 ⟨?_, ?_⟩, ?_⟩
    · refine List.mem_filterMap.2 ⟨r, hr, ?_⟩
      have hfind : db.conditions.find? (fun x => x.object_id == r.id) = some c := by
        have h := find?_key_unique hpk hc
        rw [hkey] at h
        exact h
      rw [hfind]
      rfl
    · have h1 := (from_row_eq_some.1 hfr).1
      rw [h1, hty]
      simp
    · simp only [hnow, Bool.or_eq_true, Bool.and_eq_true, beq_iff_eq,
        decide_eq_true_eq]
      exact hpred

/-- C1 witness: the membership equivalence at a concrete database, address
and clock. -/
theorem c1_resolved_query_membership_witness :
    ((1000 : Nat) < 9223372036854775808 ∧
        ((DB.mk [⟨1, 0, [9]⟩] [⟨5, 6, 100, 1⟩]).conditions.map fun c => c.object_id).Nodup) ∧
      ((∃ l, query_results_all (DB.mk [⟨1, 0, [9]⟩] [⟨5, 6, 100, 1⟩]) 5 .basic true
            (some 1000) = .ok l ∧ ⟨1, .basic, [9]⟩ ∈ l) ↔
        resolved_spec_member (DB.mk [⟨1, 0, [9]⟩] [⟨5, 6, 100, 1⟩]) 5 .basic
          ((1000 : Nat) : Int) ⟨1, .basic, [9]⟩) :=
  ⟨⟨by decide, by decide⟩,
    c1_resolved_query_membership (DB.mk [⟨1, 0, [9]⟩] [⟨5, 6, 100, 1⟩]) 5 .basic 1000
      (by decide) (by decide) ⟨1, .basic, [9]⟩⟩

/-- C1 counterexample: with the clock cell set to 2^63 the code compares
against the reinterpreted value -2^63, so an expiration row with
`unix_time = 0` and `return_address = A` satisfies the claim's predicate
`unix_time*1000 ≤ now_ms` mathematically, yet the query returns nothing. -/
theorem c1_counterexample_clock_cast :
    resolved_spec_member (DB.mk [⟨1, 0, []⟩] [⟨6, 5, 0, 1⟩]) 5 .basic
        (9223372036854775808 : Int) { id := 1, object_type := .basic, contents := [] } ∧
      query_results_all (DB.mk [⟨1, 0, []⟩] [⟨6, 5, 0, 1⟩]) 5 .basic true
          (some 9223372036854775808)
        = .ok [] := by
  constructor
  · unfold resolved_spec_member
    decide
  · rfl

/-! ### C4: characterizing sequences of upserts -/

/-- The last upsert of key `k` in a batch, if any. -/
def last_with (key : α → Nat) (s : List α) (k : Nat) : Option α :=
  (s.filter fun b => key b == k).getLast?

/-- What a batch of upserts turns an existing row into: the last upsert with
the row's key, or the row itself if the batch never touches the key. -/
def override_with (key : α → Nat) (s : List α) (x : α) : α :=
  (last_with key s (key x)).getD x

/-- The rows a batch of upserts appends to a table whose keys are `seen`:
one per first occurrence of a fresh key, carrying the last value upserted at
that key. -/
def fresh_rows (key : α → Nat) : List α → List Nat → List α
  | [], _ => []
  | a :: s, seen =>
    if key a ∈ seen then fresh_rows key s seen
    else (last_with key s (key a)).getD a :: fresh_rows key s (seen ++ [key a])

theorem getLast?_eq_some_mem {l : List α} {b : α} (h : l.getLast? = some b) : b ∈ l := by
  induction l with
  | nil => cases h
  | cons a rest ih =>
    cases rest with
    | nil =>
      rw [List.getLast?_singleton, Option.some.injEq] at h
      exact h ▸ List.mem_singleton.2 rfl
    | cons a' rest' =>
      rw [List.getLast?_cons_cons] at h
      exact List.mem_cons_of_mem _ (ih h)

theorem getLast?_cons_eq {l : List α} (a : α) :
    (a :: l).getLast? = some (l.getLast?.getD a) := by
  induction l generalizing a with
  | nil => rfl
  | cons b rest ih =>
    rw [List.getLast?_cons_cons, ih b, Option.getD_some]

theorem key_last_with {key : α → Nat} {s : List α} {k : Nat} {b : α}
    (h : last_with key s k = some b) : key b = k := by
  have hb := getLast?_eq_some_mem h
  have := (List.mem_filter.1 hb).2
  simpa using this

theorem last_with_cons {key : α → Nat} (a : α) (s : List α) (k : Nat) :
    last_with key (a :: s) k
      = if key a = k then some ((last_with key s k).getD a) else last_with key s k := by
  unfold last_with
  by_cases h : key a = k
  · rw [if_pos h, List.filter_cons_of_pos (by simpa using h), getLast?_cons_eq]
  · rw [if_neg h, List.filter_cons_of_neg (by simpa using h)]

theorem override_with_cons {key : α → Nat} (a x : α) (s : List α) :
    override_with key (a :: s) x
      = if key x = key a then (last_with key s (key a)).getD a
        else override_with key s x := by
  unfold override_with
  rw [last_with_cons]
  by_cases h : key x = key a
  · rw [if_pos h, if_pos h.symm, ← h]
    cases hl : last_with key s (key x) <;> rfl
  · rw [if_neg h, if_neg fun he => h he.symm]

theorem key_override_with (key : α → Nat) (s : List α) (x : α) :
    key (override_with key s x) = key x := by
  unfold override_with
  cases h : last_with key s (key x)
  · rfl
  · exact key_last_with h

theorem override_with_override_with (key : α → Nat) (s : List α) (x : α) :
    override_with key s (override_with key s x) = override_with key s x := by
  cases h : last_with key s (key x) with
  | none =>
    have hx : override_with key s x = x := by unfold override_with; rw [h]; rfl
    rw [hx]
    exact hx
  | some b =>
    have hb : override_with key s x = b := by unfold override_with; rw [h]; rfl
    rw [hb]
    unfold override_with
    rw [key_last_with h, h]
    rfl

theorem any_key_beq {key : α → Nat} {l : List α} {a : α} :
    (l.any fun x => key x == key a) = true ↔ key a ∈ l.map key := by
  rw [List.any_eq_true]
  constructor
  · rintro ⟨x, hx, hbeq⟩
    exact List.mem_map.2 ⟨x, hx, by simpa using hbeq⟩
  · rintro hm
    rcases List.mem_map.1 hm with ⟨x, hx, he⟩
    exact ⟨x, hx, by simpa using he⟩

theorem map_eq_self_of_forall {l : List α} {f : α → α} (h : ∀ x ∈ l, f x = x) :
    l.map f = l := by
  induction l with
  | nil => rfl
  | cons a rest ih =>
    rw [List.map_cons, h a (List.mem_cons_self a rest),
      ih fun x hx => h x (List.mem_cons_of_mem _ hx)]

theorem apply_upserts_cons (key : α → Nat) (l : List α) (a : α) (s : List α) :
    apply_upserts key l (a :: s) = apply_upserts key (upsert_by key l a) s := rfl

theorem apply_upserts_char (key : α → Nat) (l s : List α) :
    apply_upserts key l s
      = l.map (override_with key s) ++ fresh_rows key s (l.map key) := by
  induction s generalizing l with
  | nil =>
    show l = _
    rw [fresh_rows, List.append_nil, map_eq_self_of_forall]
    intro x _
    rfl
  | cons a s ih =>
    rw [apply_upserts_cons, ih]
    by_cases hany : (l.any fun x => key x == key a) = true
    · have hmapkey : (upsert_by key l a).map key = l.map key := by
        rw [map_key_upsert_by, if_pos hany]
      have hseen : key a ∈ l.map key := any_key_beq.1 hany
      rw [hmapkey]
      have hfresh : fresh_rows key (a :: s) (l.map key) = fresh_rows key s (l.map key) := by
        rw [fresh_rows, if_pos hseen]
      rw [hfresh]
      congr 1
      unfold upsert_by
      rw [if_pos hany, List.map_map]
      refine List.map_congr_left fun x _ => ?_
      show override_with key s (if key x == key a then a else x)
        = override_with key (a :: s) x
      rw [override_with_cons]
      by_cases hx : key x = key a
      · rw [if_pos (show (key x == key a) = true by simpa using hx), if_pos hx]
        rfl
      · rw [if_neg (show ¬(key x == key a) = true by simpa using hx), if_neg hx]
    · have hseen : key a ∉ l.map key := fun hm => hany (any_key_beq.2 hm)
      have hup : upsert_by key l a = l ++ [a] := by
        unfold upsert_by
        rw [if_neg (by simpa using hany)]
      rw [hup, List.map_append, List.map_append]
      have hfresh : fresh_rows key (a :: s) (l.map key)
          = (last_with key s (key a)).getD a :: fresh_rows key s (l.map key ++ [key a]) := by
        rw [fresh_rows, if_neg hseen]
      rw [hfresh]
      have hover : l.map (override_with key (a :: s)) = l.map (override_with key s) := by
        refine List.map_congr_left fun x hx => ?_
        rw [override_with_cons, if_neg]
        intro he
        exact hseen (he ▸ List.mem_map.2 ⟨x, hx, rfl⟩)
      rw [hover, List.append_assoc]
      congr 1

theorem fresh_rows_spec {key : α → Nat} :
    ∀ (s : List α) (seen : List Nat), ∀ x ∈ fresh_rows key s seen,
      key x ∉ seen ∧ key x ∈ s.map key ∧ override_with key s x = x := by
  intro s
  induction s with
  | nil => intro seen x hx; cases hx
  | cons a s ih =>
    intro seen x hx
    rw [fresh_rows] at hx
    split at hx
    · next hmem =>
      rcases ih seen x hx with ⟨h1, h2, h3⟩
      have hne : key x ≠ key a := fun he => h1 (he ▸ hmem)
      exact ⟨h1, List.mem_cons_of_mem _ h2,
        by rw [override_with_cons, if_neg hne]; exact h3⟩
    · next hmem =>
      rcases List.mem_cons.1 hx with rfl | hx'
      · have hkx : key ((last_with key s (key a)).getD a) = key a := by
          cases h : last_with key s (key a)
          · rfl
          · exact key_last_with h
        refine ⟨by rw [hkx]; exact hmem, by rw [hkx]; exact List.mem_cons_self _ _, ?_⟩
        rw [override_with_cons, if_pos hkx]
      · rcases ih (seen ++ [key a]) x hx' with ⟨h1, h2, h3⟩
        have h1' : key x ∉ seen := fun hm => h1 (List.mem_append.2 (Or.inl hm))
        have hne : key x ≠ key a :=
          fun he => h1 (List.mem_append.2 (Or.inr (List.mem_singleton.2 he)))
        exact ⟨h1', List.mem_cons_of_mem _ h2,
          by rw [override_with_cons, if_neg hne]; exact h3⟩

theorem fresh_rows_nil_of_sub {key : α → Nat} :
    ∀ (s : List α) (seen : List Nat), (∀ b ∈ s, key b ∈ seen) →
      fresh_rows key s seen = [] := by
  intro s
  induction s with
  | nil => intro seen _; rfl
  | cons a s ih =>
    intro seen h
    rw [fresh_rows, if_pos (h a (List.mem_cons_self a s))]
    exact ih seen fun b hb => h b (List.mem_cons_of_mem _ hb)

theorem fresh_rows_keys {key : α → Nat} :
    ∀ (s : List α) (seen : List Nat) (k : Nat), k ∈ s.map key → k ∉ seen →
      k ∈ (fresh_rows key s seen).map key := by
  intro s
  induction s with
  | nil => intro seen k hk _; cases hk
  | cons a s ih =>
    intro seen k hk hns
    rw [List.map_cons] at hk
    rw [fresh_rows]
    by_cases hmem : key a ∈ seen
    · rw [if_pos hmem]
      have hne : k ≠ key a := fun he => hns (he ▸ hmem)
      rcases List.mem_cons.1 hk with he | hk'
      · exact absurd he hne
      · exact ih seen k hk' hns
    · rw [if_neg hmem]
      by_cases hka : k = key a
      · have hkey : key ((last_with key s (key a)).getD a) = key a := by
          cases h : last_with key s (key a)
          · rfl
          · exact key_last_with h
        rw [List.map_cons, hkey, hka]
        exact List.mem_cons_self _ _
      · rcases List.mem_cons.1 hk with he | hk'
        · exact absurd he hka
        · rw [List.map_cons]
          refine List.mem_cons_of_mem _ (ih (seen ++ [key a]) k hk' ?_)
          intro hm
          rcases List.mem_append.1 hm with hm' | hm'
          · exact hns hm'
          · exact hka (List.mem_singleton.1 hm')

theorem override_mem_apply_upserts {key : α → Nat} {l s : List α} :
    ∀ x ∈ apply_upserts key l s, override_with key s x = x := by
  intro x hx
  rw [apply_upserts_char] at hx
  rcases List.mem_append.1 hx with hx' | hx'
  · rcases List.mem_map.1 hx' with ⟨y, _, rfl⟩
    exact override_with_override_with key s y
  · exact (fresh_rows_spec s (l.map key) x hx').2.2

theorem keys_sub_apply_upserts {key : α → Nat} (l s : List α) :
    ∀ b ∈ s, key b ∈ (apply_upserts key l s).map key := by
  intro b hb
  rw [apply_upserts_char, List.map_append]
  by_cases hm : key b ∈ l.map key
  · rcases List.mem_map.1 hm with ⟨y, hy, hky⟩
    refine List.mem_append.2 (Or.inl (List.mem_map.2
      ⟨override_with key s y, List.mem_map.2 ⟨y, hy, rfl⟩, ?_⟩))
    rw [key_override_with key s y, hky]
  · exact List.mem_append.2 (Or.inr
      (fresh_rows_keys s (l.map key) (key b) (List.mem_map.2 ⟨b, hb, rfl⟩) hm))

theorem apply_upserts_idem (key : α → Nat) (l s : List α) :
    apply_upserts key (apply_upserts key l s) s = apply_upserts key l s := by
  rw [apply_upserts_char key (apply_upserts key l s) s,
    map_eq_self_of_forall override_mem_apply_upserts,
    fresh_rows_nil_of_sub _ _ (keys_sub_apply_upserts l s), List.append_nil]

theorem filter_filter_self (p : α → Bool) (l : List α) :
    (l.filter p).filter p = l.filter p := by
  rw [List.filter_filter]
  simp only [Bool.and_self]

theorem delete_by_delete_by (key : α → Nat) (keys : List Nat) (l : List α) :
    delete_by key keys (delete_by key keys l) = delete_by key keys l :=
  filter_filter_self _ _

theorem delete_by_append (key : α → Nat) (keys : List Nat) (l1 l2 : List α) :
    delete_by key keys (l1 ++ l2) = delete_by key keys l1 ++ delete_by key keys l2 :=
  List.filter_append _ _

theorem mem_delete_by_iff {key : α → Nat} {keys : List Nat} {l : List α} {x : α} :
    x ∈ delete_by key keys l ↔ x ∈ l ∧ key x ∉ keys := by
  unfold delete_by
  rw [List.mem_filter]
  constructor
  · rintro ⟨hm, hp⟩
    refine ⟨hm, fun hk => ?_⟩
    rw [Bool.not_eq_true', List.any_eq_false] at hp
    exact hp (key x) hk (by simp)
  · rintro ⟨hm, hk⟩
    refine ⟨hm, ?_⟩
    rw [Bool.not_eq_true', List.any_eq_false]
    intro k hkk
    simp only [beq_iff_eq]
    intro he
    exact hk (he ▸ hkk)

theorem delete_apply_upserts_delete (key : α → Nat) (keys : List Nat) (l s : List α) :
    delete_by key keys
        (apply_upserts key (delete_by key keys (apply_upserts key l s)) s)
      = delete_by key keys (apply_upserts key l s) := by
  rw [apply_upserts_char key (delete_by key keys (apply_upserts key l s)) s]
  rw [map_eq_self_of_forall fun x hx =>
    override_mem_apply_upserts x (mem_delete_by_iff.1 hx).1]
  rw [delete_by_append, delete_by_delete_by]
  have hfresh : delete_by key keys
      (fresh_rows key s ((delete_by key keys (apply_upserts key l s)).map key)) = [] := by
    unfold delete_by
    rw [List.filter_eq_nil_iff]
    intro e he
    rcases fresh_rows_spec s ((delete_by key keys (apply_upserts key l s)).map key) e he
      with ⟨h1, h2, _⟩
    have hM : key e ∈ (apply_upserts key l s).map key := by
      rcases List.mem_map.1 h2 with ⟨b, hb, hkb⟩
      rw [← hkb]
      exact keys_sub_apply_upserts l s b hb
    have hkeys : key e ∈ keys := by
      by_contra hk
      rcases List.mem_map.1 hM with ⟨m, hm, hkm⟩
      exact h1 (List.mem_map.2 ⟨m, mem_delete_by_iff.2 ⟨hm, by rw [hkm]; exact hk⟩, hkm⟩)
    have hany : (keys.any fun k => k == key e) = true :=
      List.any_eq_true.2 ⟨key e, hkeys, by simp⟩
    simp [hany]
  rw [hfresh, List.append_nil]

theorem try_from_stored_none {decode : List Nat → Option ExpirationTriple}
    {so : StoredObject} (hd : decode so.contents = none) :
    ExpirationUnlockCondition.try_from_stored decode so = none := by
  unfold ExpirationUnlockCondition.try_from_stored
  rw [hd]
  rfl

theorem try_from_stored_some {decode : List Nat → Option ExpirationTriple}
    {so : StoredObject} {e : ExpirationTriple} (hd : decode so.contents = some e) :
    ExpirationUnlockCondition.try_from_stored decode so
      = some { owner := e.owner, return_address := e.return_address,
               unix_time := e.unix_time, object_id := so.id } := by
  unfold ExpirationUnlockCondition.try_from_stored
  rw [hd]
  rfl

theorem multi_insert_decomp (decode : List Nat → Option ExpirationTriple)
    (db : DB) (sos : List StoredObject) :
    multi_insert_as_database_transactions decode db sos
      = ({ objects := apply_upserts (fun r => r.id) db.objects
              ((sos.takeWhile fun so => (decode so.contents).isSome).map
                StoredObject.to_row),
           conditions := apply_upserts (fun c => c.object_id) db.conditions
              ((sos.takeWhile fun so => (decode so.contents).isSome).filterMap
                (ExpirationUnlockCondition.try_from_stored decode)) },
         sos.all fun so => (decode so.contents).isSome) := by
  induction sos generalizing db with
  | nil => rfl
  | cons so rest ih =>
    cases hd : decode so.contents with
    | none =>
      simp only [multi_insert_as_database_transactions, try_from_stored_none hd,
        List.takeWhile_cons, List.all_cons, hd, Option.isSome_none, Bool.false_and,
        if_false, List.map_nil, List.filterMap_nil]
      rfl
    | some e =>
      simp only [multi_insert_as_database_transactions, try_from_stored_some hd, ih,
        List.takeWhile_cons, List.all_cons, hd, Option.isSome_some, Bool.true_and,
        if_true, List.map_cons, List.filterMap_cons_some (try_from_stored_some hd)]
      rfl

theorem delete_objects_idem (db : DB) (addresses : List IotaAddr) :
    delete_objects (delete_objects db addresses) addresses = delete_objects db addresses := by
  unfold delete_objects
  congr 1 <;> exact delete_by_delete_by _ _ _

theorem delete_phase_idem (db : DB) (deleted : List IotaAddr) :
    delete_phase (delete_phase db deleted) deleted = delete_phase db deleted := by
  unfold delete_phase
  by_cases hDe : deleted.isEmpty
  · rw [if_pos hDe, if_pos hDe]
  · rw [if_neg hDe, if_neg hDe, delete_objects_idem]

theorem process_checkpoint_decomp (decode : List Nat → Option ExpirationTriple)
    (package_id : Nat) (db : DB) (checkpoint : CheckpointData) :
    process_checkpoint decode package_id db checkpoint
      = if (created_objects package_id checkpoint).isEmpty then
          (delete_phase db (deleted_addresses package_id checkpoint), true)
        else if (created_objects package_id checkpoint).all
            (fun so => (decode so.contents).isSome) then
          (delete_phase
            { objects := apply_upserts (fun r => r.id) db.objects
                (((created_objects package_id checkpoint).takeWhile
                  (fun so => (decode so.contents).isSome)).map StoredObject.to_row),
              conditions := apply_upserts (fun c => c.object_id) db.conditions
                (((created_objects package_id checkpoint).takeWhile
                  (fun so => (decode so.contents).isSome)).filterMap
                  (ExpirationUnlockCondition.try_from_stored decode)) }
            (deleted_addresses package_id checkpoint), true)
        else
          ({ objects := apply_upserts (fun r => r.id) db.objects
              (((created_objects package_id checkpoint).takeWhile
                (fun so => (decode so.contents).isSome)).map StoredObject.to_row),
             conditions := apply_upserts (fun c => c.object_id) db.conditions
              (((created_objects package_id checkpoint).takeWhile
                (fun so => (decode so.contents).isSome)).filterMap
                (ExpirationUnlockCondition.try_from_stored decode)) }, false) := by
  unfold process_checkpoint insert_phase
  by_cases hCe : (created_objects package_id checkpoint).isEmpty
  · simp [hCe]
  · rw [if_neg hCe, if_neg hCe, multi_insert_decomp]
    by_cases hall : (created_objects package_id checkpoint).all
        (fun so => (decode so.contents).isSome)
    · simp [hall]
    · simp [hall]

/-- C4: processing the same checkpoint twice leaves the same objects and
expiration tables (and the same success flag) as processing it once, from
any starting database state and for any decoded-expiration oracle: all
writes are primary-key-keyed upserts and the deletes are set-based, and even
a mid-batch conversion failure reaches the same partial state. -/
theorem c4_process_checkpoint_idempotent (decode : List Nat → Option ExpirationTriple)
    (package_id : Nat) (db : DB) (checkpoint : CheckpointData) :
    process_checkpoint decode package_id
        (process_checkpoint decode package_id db checkpoint).1 checkpoint
      = process_checkpoint decode package_id db checkpoint := by
  by_cases hCe : (created_objects package_id checkpoint).isEmpty
  · rw [process_checkpoint_decomp, if_pos hCe, process_checkpoint_decomp, if_pos hCe]
    show (delete_phase (delete_phase db _) _, true) = _
    rw [delete_phase_idem]
  · by_cases hall : (created_objects package_id checkpoint).all
        (fun so => (decode so.contents).isSome)
    · rw [process_checkpoint_decomp, if_neg hCe, if_pos hall,
        process_checkpoint_decomp, if_neg hCe, if_pos hall]
      show (delete_phase _ _, true) = (delete_phase _ _, true)
      rw [Prod.mk.injEq]
      refine ⟨?_, rfl⟩
      by_cases hDe : (deleted_addresses package_id checkpoint).isEmpty
      · unfold delete_phase
        rw [if_pos hDe, if_pos hDe]
        show ({ objects := apply_upserts _ (apply_upserts _ _ _) _,
                conditions := apply_upserts _ (apply_upserts _ _ _) _ } : DB) = _
        rw [DB.mk.injEq]
        exact ⟨apply_upserts_idem _ _ _, apply_upserts_idem _ _ _⟩
      · unfold delete_phase
        rw [if_neg hDe, if_neg hDe]
        unfold delete_objects
        rw [DB.mk.injEq]
        exact ⟨delete_apply_upserts_delete _ _ _ _, delete_apply_upserts_delete _ _ _ _⟩
    · rw [process_checkpoint_decomp, if_neg hCe, if_neg hall,
        process_checkpoint_decomp, if_neg hCe, if_neg hall]
      rw [Prod.mk.injEq]
      refine ⟨?_, rfl⟩
      rw [DB.mk.injEq]
      exact ⟨apply_upserts_idem _ _ _, apply_upserts_idem _ _ _⟩

/-! ### C7 -/

/-- The payload of a successful result, with a default for errors. -/
def okD : Except ε α → α → α
  | .ok a, _ => a
  | .error _, d => d

theorem decode_rows_drop {l : List ObjectRow} {L : List StoredObject}
    (h : decode_rows l = some L) : ∀ n, decode_rows (l.drop n) = some (L.drop n) := by
  induction l generalizing L with
  | nil =>
    rw [decode_rows, Option.some.injEq] at h
    intro n
    rw [← h]
    cases n <;> rfl
  | cons r rest ih =>
    rw [decode_rows] at h
    rcases hfr : StoredObject.from_row r with _ | s
    · rw [hfr] at h; cases h
    · rcases hdr : decode_rows rest with _ | ss
      · rw [hfr, hdr] at h; cases h
      · rw [hfr, hdr] at h
        rw [Option.some.injEq] at h
        subst h
        intro n
        cases n with
        | zero => rw [List.drop_zero, List.drop_zero, decode_rows, hfr, hdr]
        | succ n => exact ih hdr n

theorem decode_rows_take {l : List ObjectRow} {L : List StoredObject}
    (h : decode_rows l = some L) : ∀ n, decode_rows (l.take n) = some (L.take n) := by
  induction l generalizing L with
  | nil =>
    rw [decode_rows, Option.some.injEq] at h
    intro n
    rw [← h]
    cases n <;> rfl
  | cons r rest ih =>
    rw [decode_rows] at h
    rcases hfr : StoredObject.from_row r with _ | s
    · rw [hfr] at h; cases h
    · rcases hdr : decode_rows rest with _ | ss
      · rw [hfr, hdr] at h; cases h
      · rw [hfr, hdr] at h
        rw [Option.some.injEq] at h
        subst h
        intro n
        cases n with
        | zero => rfl
        | succ n =>
          rw [List.take_succ_cons, List.take_succ_cons, decode_rows, hfr, ih hdr n]

theorem paginate_page {p : Nat} (i : Nat) (l : List α)
    (hi : i < 4294967296) (hoff : i * p < 4294967296) :
    paginate { page := some (i + 1), page_size := some p } l
      = (l.drop (i * p)).take p := by
  unfold paginate u32_wrap
  simp only [Option.getD_some]
  have h1 : i + 1 + 4294967295 = i + 4294967296 := by omega
  rw [h1, Nat.add_mod_right, Nat.mod_eq_of_lt hi, Nat.mod_eq_of_lt hoff]

/-- C7 amended: for page sizes `p ≥ 1` and page counts `k` with
`k·p < 2^32` (so that the u32 computation `(page-1)*page_size` cannot
wrap), each page `i+1` of the query is the slice `[i·p, i·p+p)` of the
unpaginated result, and the concatenation of pages `1..k` is the prefix of
length `min(k·p, total)` of the unpaginated result in the same order. -/
theorem c7_pagination_pages_concat (db : DB) (address : IotaAddr) (t : ObjectType)
    (resolve : Bool) (clock : Option Nat) (p k : Nat) (L : List StoredObject)
    (hp : 1 ≤ p) (hk : k * p < 4294967296)
    (hL : query_results_all db address t resolve clock = .ok L) :
    (∀ i < k,
        fetch_stored_objects db address { page := some (i + 1), page_size := some p }
            t resolve clock
          = .ok ((L.drop (i * p)).take p)) ∧
      ((List.range k).map fun i =>
          okD (fetch_stored_objects db address
            { page := some (i + 1), page_size := some p } t resolve clock) []).flatten
        = L.take (min (k * p) L.length) := by
  have hp0 : 0 < p := hp
  rcases hbq : base_query db address t resolve clock with e | rows
  · rw [query_results_all, hbq] at hL
    cases hL
  · have hdec : decode_rows (rows.map fun rc => rc.1) = some L := by
      rw [query_results_all, hbq] at hL
      rcases hd : decode_rows (rows.map fun rc => rc.1) with _ | L'
      · simp only [Except.bind, hd] at hL
        cases hL
      · simp only [Except.bind, hd, Except.ok.injEq] at hL
        rw [hL] at hd
        exact hd
    have hpages : ∀ i < k,
        fetch_stored_objects db address { page := some (i + 1), page_size := some p }
            t resolve clock
          = .ok ((L.drop (i * p)).take p) := by
      intro i hik
      have hip : i * p < 4294967296 :=
        lt_trans ((Nat.mul_lt_mul_right hp0).2 hik) hk
      have hi : i < 4294967296 :=
        lt_of_lt_of_le hik (le_trans (Nat.le_mul_of_pos_right k hp0) (le_of_lt hk))
      rw [fetch_stored_objects, hbq]
      simp only [Except.bind]
      rw [paginate_page i rows hi hip, List.map_take, List.map_drop,
        decode_rows_take (decode_rows_drop hdec (i * p)) p]
    refine ⟨hpages, ?_⟩
    have hflat : ∀ k', k' ≤ k →
        ((List.range k').map fun i =>
            okD (fetch_stored_objects db address
              { page := some (i + 1), page_size := some p } t resolve clock) []).flatten
          = L.take (k' * p) := by
      intro k' hk'
      induction k' with
      | zero => simp
      | succ n ihn =>
        rw [List.range_succ, List.map_append, List.flatten_append,
          ihn (Nat.le_of_succ_le hk')]
        have hn := hpages n (Nat.lt_of_lt_of_le (Nat.lt_succ_self n) hk')
        rw [List.map_singleton, hn]
        show L.take (n * p) ++ ((L.drop (n * p)).take p ++ []) = _
        rw [List.append_nil, Nat.succ_mul, List.take_add]
    rw [hflat k (Nat.le_refl k)]
    rcases Nat.le_total (k * p) L.length with h | h
    · rw [Nat.min_eq_left h]
    · rw [Nat.min_eq_right h, List.take_of_length_le h, List.take_length]

/-- A database with two basic rows owned by address 5, for the pagination
witness. -/
def db_two_basic : DB :=
  { objects := [{ id := 1, object_type := 0, contents := [] },
                { id := 2, object_type := 0, contents := [] }],
    conditions := [{ owner := 5, return_address := 5, unix_time := 10, object_id := 1 },
                   { owner := 5, return_address := 5, unix_time := 20, object_id := 2 }] }

/-- C7 witness: pages of size 1 over two rows concatenate to the unpaginated
result. -/
theorem c7_pagination_pages_concat_witness :
    ((1 : Nat) ≤ 1 ∧ 2 * 1 < 4294967296 ∧
        query_results_all db_two_basic 5 .basic false none
          = .ok [⟨1, .basic, []⟩, ⟨2, .basic, []⟩]) ∧
      ((List.range 2).map fun i =>
          okD (fetch_stored_objects db_two_basic 5
            { page := some (i + 1), page_size := some 1 } .basic false none) []).flatten
        = ([⟨1, .basic, []⟩, ⟨2, .basic, []⟩] : List StoredObject).take
            (min (2 * 1) ([⟨1, .basic, []⟩, ⟨2, .basic, []⟩] : List StoredObject).length) :=
  ⟨⟨by decide, by decide, rfl⟩,
    (c7_pagination_pages_concat db_two_basic 5 .basic false none 1 2
        [⟨1, .basic, []⟩, ⟨2, .basic, []⟩] (by decide) (by decide) rfl).2⟩

/-- A database with one basic row owned by address 5, for the pagination
counterexample. -/
def db_one_basic : DB :=
  { objects := [{ id := 1, object_type := 0, contents := [] }],
    conditions := [{ owner := 5, return_address := 5, unix_time := 10, object_id := 1 }] }

/-- C7 counterexample: with the legal page size `p = 2^31` and `k = 3`, the
u32 offset `(page-1)*page_size` wraps (page 3 gets offset 0 again), so the
concatenation of pages 1..3 repeats the first row instead of being the
prefix of length `min(3p, total)` of the unpaginated result. -/
theorem c7_counterexample_offset_wrap :
    (1 : Nat) ≤ 2147483648 ∧
      query_results_all db_one_basic 5 .basic false none = .ok [⟨1, .basic, []⟩] ∧
      ((List.range 3).map fun i =>
          okD (fetch_stored_objects db_one_basic 5
            { page := some (i + 1), page_size := some 2147483648 } .basic false none)
            []).flatten
        ≠ ([⟨1, .basic, []⟩] : List StoredObject).take (min (3 * 2147483648) 1) := by
  refine ⟨by decide, rfl, ?_⟩
  intro h
  have h2 : ([⟨1, .basic, []⟩, ⟨1, .basic, []⟩] : List StoredObject)
      = [⟨1, .basic, []⟩] := h
  cases h2
